import Mathlib

/-!
Verification of the Cobalt design-token plugins (pluginMAUI, pluginXAML and
the SCSS post-processor) against their natural-language specification.

JavaScript strings are modelled as `List Char` (`JStr`), JavaScript numbers
as exact rationals (`ℚ`), with `Option ℚ` (`JNum`) marking non-finite results
(NaN / Infinity conflated as `none`).  Dynamic JavaScript values that a
formatter inspects with `typeof` are modelled by the small sum type `JSVal`.
All definitions mirror the source files of the repository; the namespaces
`PluginMAUI` (latest pluginMAUI revision), `PluginMAUI2` (the revision
carrying `convertFontWeight`), `PluginXAML` and `Postprocess` (the SCSS
filter script) correspond to the individual source files.
-/

/-- JavaScript strings, modelled as lists of characters. -/
abbrev JStr := List Char

/-- Turn a Lean string literal into the `JStr` model. -/
def js (s : String) : JStr := s.data

/-- Whitespace class of the JavaScript regular expression `\s` and of
`String.prototype.trim` (ASCII part; the conversion never meets the
non-ASCII space code points). -/
def isJsWs (c : Char) : Bool :=
  c = ' ' || c = '\t' || c = '\n' || c = '\r' ||
  c = Char.ofNat 11 || c = Char.ofNat 12

/-- Model of `String.prototype.trim`: drop whitespace from both ends. -/
def jsTrim (s : JStr) : JStr :=
  ((s.dropWhile isJsWs).reverse.dropWhile isJsWs).reverse

/-- Model of `String.prototype.endsWith`. -/
def endsWithJ (s suffix : JStr) : Bool := suffix.isSuffixOf s

/-- Model of `String.prototype.startsWith`. -/
def startsWithJ (s p : JStr) : Bool := p.isPrefixOf s

/-- Bool test that `sub` occurs as a contiguous substring of `s` (model of
`String.prototype.includes`). -/
def containsSub : JStr → JStr → Bool
  | [], sub => sub.isEmpty
  | c :: cs, sub => sub.isPrefixOf (c :: cs) || containsSub cs sub

/-- Model of `String.prototype.replace` with a plain-string pattern: replace
only the first occurrence of `pat` by `repl`. -/
def replaceFirst : JStr → JStr → JStr → JStr
  | [], pat, repl => if pat = [] then repl else []
  | c :: cs, pat, repl =>
    if pat.isPrefixOf (c :: cs) then repl ++ (c :: cs).drop pat.length
    else c :: replaceFirst cs pat repl

/-- Decimal digit test (the `[0-9]` character class). -/
def isDig (c : Char) : Bool := '0' ≤ c && c ≤ '9'

/-- Hexadecimal digit test (the `[0-9A-Fa-f]` character class). -/
def isHexDig (c : Char) : Bool :=
  ('0' ≤ c && c ≤ '9') || ('A' ≤ c && c ≤ 'F') || ('a' ≤ c && c ≤ 'f')

/-- Numeric value of a digit string, most significant digit first. -/
def digitsToNat (ds : JStr) : Nat :=
  ds.foldl (fun a c => a * 10 + (c.toNat - 48)) 0

/-- JavaScript numbers: `some q` is the finite value `q` (modelled as an
exact rational), `none` stands for a non-finite result (NaN or Infinity). -/
abbrev JNum := Option ℚ

/-- Division on `JNum`; division by zero or by a non-finite value is
non-finite. -/
def jdiv (a b : JNum) : JNum :=
  match a, b with
  | some x, some y => if y = 0 then none else some (x / y)
  | _, _ => none

/-- Multiplication on `JNum`. -/
def jmul (a b : JNum) : JNum :=
  match a, b with
  | some x, some y => some (x * y)
  | _, _ => none

/-- Model of `Math.round`: round half towards positive infinity;
a non-finite argument gives a non-finite result. -/
def jround (a : JNum) : Option Int :=
  a.map (fun q => ⌊q + 1/2⌋)

/-- Model of the JavaScript `parseFloat` builtin on the decimal literals the
plugin meets: optional leading whitespace, optional sign, integer digits,
optional fraction digits; trailing garbage (such as a unit suffix) is
ignored.  `none` models the `NaN` result. -/
def jsParseFloat (s0 : JStr) : JNum :=
  let s1 := s0.dropWhile isJsWs
  let signAndRest : Bool × JStr :=
    match s1 with
    | c :: rest =>
      if c = '-' then (true, rest)
      else if c = '+' then (false, rest)
      else (false, s1)
    | [] => (false, s1)
  let intDigits := signAndRest.2.takeWhile isDig
  let afterInt := signAndRest.2.drop intDigits.length
  let fracDigits : JStr :=
    match afterInt with
    | c :: rest => if c = '.' then rest.takeWhile isDig else []
    | [] => []
  if intDigits = [] ∧ fracDigits = [] then none
  else
    let mag : ℚ :=
      (digitsToNat intDigits : ℚ) +
        (digitsToNat fracDigits : ℚ) / ((10 : ℚ) ^ fracDigits.length)
    some (if signAndRest.1 then -mag else mag)

/-- Dynamic JavaScript values handled by the formatters that branch on
`typeof`. -/
inductive JSVal where
  | str : JStr → JSVal
  | num : ℚ → JSVal
  | bool : Bool → JSVal
  | null : JSVal
deriving DecidableEq

/-- Decimal digits of a natural number, most significant first; `fuel`
bounds the recursion and is always passed as `n + 1`. -/
def natToStrAux : Nat → Nat → JStr
  | 0, _ => []
  | _ + 1, 0 => []
  | fuel + 1, n => natToStrAux fuel (n / 10) ++ [Char.ofNat (48 + n % 10)]

/-- Decimal rendering of a natural number. -/
def natToStr (n : Nat) : JStr :=
  if n = 0 then js ("0") else natToStrAux (n + 1) n

/-- Decimal rendering of an integer. -/
def intToStr (i : Int) : JStr :=
  if i < 0 then '-' :: natToStr i.natAbs else natToStr i.natAbs

/-- Fractional decimal digits of a rational in `[0, 1)`, up to `fuel`
digits (JavaScript prints at most 17 significant digits). -/
def fracDigitsOf : Nat → ℚ → JStr
  | 0, _ => []
  | fuel + 1, q =>
    if q = 0 then []
    else
      let q10 := q * 10
      Char.ofNat (48 + (⌊q10⌋.toNat % 10)) :: fracDigitsOf fuel (q10 - ⌊q10⌋)

/-- Model of JavaScript number-to-string conversion for the finite decimal
values produced by the token pipeline (exact for terminating decimals of at
most 17 fractional digits, which covers every value the plugin prints). -/
def ratToStr (q : ℚ) : JStr :=
  let sign : JStr := if q < 0 then ['-'] else []
  let a : ℚ := |q|
  let ip := ⌊a⌋.toNat
  let fr := a - ⌊a⌋
  sign ++ natToStr ip ++ (if fr = 0 then [] else '.' :: fracDigitsOf 17 fr)

/-- Rendering of a `JNum` in a template literal (`NaN` for non-finite). -/
def jnumToStr (x : JNum) : JStr :=
  match x with
  | none => js ("NaN")
  | some q => ratToStr q

/-- Rendering of a rounded result (`Option Int`) in a template literal. -/
def optIntToStr (x : Option Int) : JStr :=
  match x with
  | none => js ("NaN")
  | some i => intToStr i

/-- Three decimal digits with leading zeros (used by `toFixed(3)`). -/
def pad3 (n : Nat) : JStr :=
  [Char.ofNat (48 + n / 100 % 10), Char.ofNat (48 + n / 10 % 10),
   Char.ofNat (48 + n % 10)]

/-- Model of JavaScript `Number.prototype.toFixed(3)`: round to three
decimal places, ties away from zero; `NaN` for non-finite input. -/
def toFixed3 (x : JNum) : JStr :=
  match x with
  | none => js ("NaN")
  | some q =>
    let m : Int := if q < 0 then -⌊-q * 1000 + 1/2⌋ else ⌊q * 1000 + 1/2⌋
    let a := m.natAbs
    (if m < 0 then ['-'] else ([] : JStr)) ++
      natToStr (a / 1000) ++ '.' :: pad3 (a % 1000)

/-- One layer of a `shadow` token's value: the fields read by
`convertShadowToMAUI`. -/
structure ShadowLayer where
  color : JStr
  blur : JSVal
  spread : JStr
  offsetX : JSVal
  offsetY : JSVal
  inset : Bool
deriving DecidableEq

/-- The record value of a `typography` token: the fields read by
`convertTypographyToXAML`. -/
structure TypographyVal where
  fontFamily : JStr
  fontWeight : JSVal
  fontSize : JStr
  lineHeight : JStr
  letterSpacing : JSVal
  textDecoration : JStr
  textCase : JStr
deriving DecidableEq

/-- A token's `$value` (or a mode-override value): a string for `color` and
`dimension` tokens, a layer list for `shadow`, a record for `typography`. -/
inductive Value where
  | str : JStr → Value
  | shadows : List ShadowLayer → Value
  | typo : TypographyVal → Value
deriving DecidableEq

/-- JavaScript truthiness of a token value: the empty string is falsy,
every object or array is truthy. -/
def Value.truthy : Value → Bool
  | .str s => !s.isEmpty
  | _ => true

/-- String view of a value.  The conversion only ever applies it to string
values; JavaScript would coerce an object, which is modelled degenerately by
the empty string. -/
def Value.asStr : Value → JStr
  | .str s => s
  | _ => []

/-- View of a value as a dynamic JavaScript value for `typeof` dispatch:
non-string values all fail the `typeof value === 'string'` test, which is
what the formatters inspect. -/
def Value.toJSVal : Value → JSVal
  | .str s => .str s
  | _ => .null

/-- The `$extensions` side channel of a token: the optional `mode` mapping
(mode name to override value, an insertion-ordered association list standing
for the JavaScript object) and the optional `figma.collection.name` path
(`none` models any break in that property chain). -/
structure TokenExt where
  mode : Option (List (JStr × Value))
  figmaCollectionName : Option JStr
deriving DecidableEq

/-- A design token as consumed by the plugins. -/
structure Token where
  id : JStr
  type : JStr
  value : Value
  extensions : Option TokenExt
deriving DecidableEq

/-- Key lookup in the association list standing for a JavaScript object. -/
def lookupAssoc : List (JStr × Value) → JStr → Option Value
  | [], _ => none
  | (k, v) :: rest, key => if k = key then some v else lookupAssoc rest key

/-- A compiled regular expression, abstracted to its `test` function. -/
abbrev Pattern := JStr → Bool

/-- Model of the JavaScript object used as a grouping accumulator
(`acc[key].push(t)`, new keys appended in insertion order). -/
def insertGroup (acc : List (JStr × List Token)) (key : JStr) (t : Token) :
    List (JStr × List Token) :=
  if key ∈ acc.map Prod.fst then
    acc.map (fun e => if e.1 = key then (e.1, e.2 ++ [t]) else e)
  else acc ++ [(key, [t])]

/-- An output record `{filename, contents}` returned by a plugin build. -/
structure OutputFile where
  filename : JStr
  contents : JStr
deriving DecidableEq

namespace PluginMAUI

/-- Source: `convertColorFormat` — an 8-digit hex color `#rrggbbaa` is
rearranged to `#aarrggbb` (`value.slice(7, 9)` then `value.slice(1, 7)`);
any other value is returned unchanged. -/
def convertColorFormat (value : JStr) : JStr :=
  if (match value with
      | c :: rest => c = '#' && rest.length = 8 && rest.all isHexDig
      | [] => false) then
    '#' :: ((value.drop 7).take 2 ++ (value.drop 1).take 6)
  else value

/-- Source: `parseDimension` — a string ending in `px` has the first
occurrence of `px` removed; any non-string or string without the suffix
falls back to the literal `16`. -/
def parseDimension (value : JSVal) : JStr :=
  match value with
  | .str s =>
    if endsWithJ s (js ("px")) then replaceFirst s (js ("px")) []
    else js ("16")
  | _ => js ("16")

/-- Source: `parseLetterSpacing` — a `%`-suffixed string is converted from a
percentage of the font size to a per-mille integer, a `px`-suffixed string is
converted from absolute pixels to the same unit; anything else yields `0`.
The result is `none` when the JavaScript computation would be `NaN`. -/
def parseLetterSpacing (letterSpacing : JSVal) (fontSize : JNum) : Option Int :=
  match letterSpacing with
  | .str s =>
    if endsWithJ s (js ("%")) then
      let percentage := jdiv (jsParseFloat s) (some 100)
      let letterSpacingEm := jmul percentage fontSize
      jround (jmul (jdiv letterSpacingEm fontSize) (some 1000))
    else if endsWithJ s (js ("px")) then
      let letterSpacingPx := jsParseFloat s
      jround (jmul (jdiv letterSpacingPx fontSize) (some 1000))
    else some 0
  | _ => some 0

/-- Source: `convertTextCase`. -/
def convertTextCase (textCase : JStr) : JStr :=
  let u := textCase.map Char.toUpper
  if u = js ("UPPERCASE") then js ("Upper")
  else if u = js ("LOWERCASE") then js ("Lower")
  else if u = js ("CAPITALIZE") then js ("Capitalize")
  else js ("None")

/-- Source: `convertTextDecoration`. -/
def convertTextDecoration (textDecoration : JStr) : JStr :=
  let u := textDecoration.map Char.toUpper
  if u = js ("UNDERLINE") then js ("Underline")
  else if u = js ("LINE-THROUGH") then js ("Strikethrough")
  else if u = js ("OVERLINE") then js ("Overline")
  else js ("None")

/-- The list of valid MAUI font-weight names shared by both font-weight
converters. -/
def validFontWeights : List JStr :=
  [js ("Thin"), js ("ExtraLight"), js ("Light"), js ("Regular"),
   js ("Medium"), js ("SemiBold"), js ("Bold"), js ("ExtraBold"),
   js ("Black")]

/-- Normalisation applied to string font weights: strip all whitespace, then
uppercase the first character and lowercase the rest (ASCII model of
`toUpperCase` / `toLowerCase`). -/
def normalizeWeight (w : JStr) : JStr :=
  match w.filter (fun c => !(isJsWs c)) with
  | [] => []
  | c :: cs => Char.toUpper c :: cs.map Char.toLower

/-- Numeric font-weight table of both converters (the `switch` statement);
the default case is `Regular`. -/
def weightTable (q : ℚ) : JStr :=
  if q = 100 then js ("Thin")
  else if q = 200 then js ("ExtraLight")
  else if q = 300 then js ("Light")
  else if q = 400 then js ("Regular")
  else if q = 500 then js ("Medium")
  else if q = 600 then js ("SemiBold")
  else if q = 700 then js ("Bold")
  else if q = 800 then js ("ExtraBold")
  else if q = 900 then js ("Black")
  else js ("Regular")

/-- Source: `convertFontWeightToFontFamily` — computes the weight name
exactly as `convertFontWeight` does and appends it to the font family. -/
def convertFontWeightToFontFamily (fontFamily : JStr) (weight : JSVal) : JStr :=
  let weightName :=
    match weight with
    | .str w =>
      let normalizedWeight := normalizeWeight w
      if normalizedWeight ∈ validFontWeights then normalizedWeight
      else js ("Regular")
    | .num q => weightTable q
    | _ => js ("Regular")
  fontFamily ++ weightName

end PluginMAUI

namespace PluginMAUI2

/-- Source: `convertFontWeight` (earlier pluginMAUI revision) — string input
is whitespace-stripped and case-normalised, then validated against the valid
weight names; numeric input goes through the fixed 100‥900 table; anything
unrecognised defaults to `Regular`. -/
def convertFontWeight (weight : JSVal) : JStr :=
  match weight with
  | .str w =>
    let normalizedWeight := PluginMAUI.normalizeWeight w
    if normalizedWeight ∈ PluginMAUI.validFontWeights then normalizedWeight
    else js ("Regular")
  | .num q => PluginMAUI.weightTable q
  | _ => js ("Regular")

end PluginMAUI2

namespace PluginMAUI

/-- Source: `detectAllModes` — the distinct mode names found in any token's
`$extensions.mode`, in encounter order (the `Set` keeps insertion order). -/
def detectAllModes (tokens : List Token) : List JStr :=
  tokens.foldl (fun acc t =>
    match t.extensions with
    | some e =>
      match e.mode with
      | some mm => (mm.map Prod.fst).foldl
          (fun a k => if k ∈ a then a else a ++ [k]) acc
      | none => acc
    | none => acc) []

/-- Source: the mode-override lookup chain
`token.$extensions.mode[mode]`. -/
def modeOverrideVal (token : Token) (m : JStr) : Option Value :=
  match token.extensions with
  | some e =>
    match e.mode with
    | some mm => lookupAssoc mm m
    | none => none
  | none => none

/-- Source: truthiness of the chain
`token.$extensions && token.$extensions.mode && token.$extensions.mode[mode]`. -/
def hasModeVal (token : Token) (m : JStr) : Bool :=
  match modeOverrideVal token m with
  | some v => v.truthy
  | none => false

/-- The filter predicate of `groupTokensByCollectionAndMode`: a truthy mode
override for `m` and an `id` matching none of the compiled patterns. -/
def modeFilterPass (regexPatterns : List Pattern) (m : JStr) (token : Token) :
    Bool :=
  hasModeVal token m && !(regexPatterns.any (fun regex => regex token.id))

/-- Source: the property chain `token.$extensions.figma.collection.name`;
`none` models a break in the chain (a JavaScript `TypeError`). -/
def collectionNameOf (token : Token) : Option JStr :=
  match token.extensions with
  | some e => e.figmaCollectionName
  | none => none

/-- Source: the mode token `{ ...token, $value: token.$extensions.mode[mode] }`
(a shallow copy with the value replaced by the override). -/
def modeToken (token : Token) (m : JStr) : Token :=
  { token with value := (modeOverrideVal token m).getD token.value }

/-- Message of the `TypeError` raised when the
`$extensions.figma.collection.name` chain is broken. -/
def typeErrorMsg : JStr :=
  js ("TypeError: Cannot read properties of undefined")

/-- The `reduce` of `groupTokensByCollectionAndMode`: partition the already
filtered tokens by collection name, replacing each value by its mode
override; a missing collection name raises. -/
def collectGroups (m : JStr) :
    List (JStr × List Token) → List Token → Except JStr (List (JStr × List Token))
  | acc, [] => .ok acc
  | acc, t :: ts =>
    match collectionNameOf t with
    | none => .error typeErrorMsg
    | some collectionName =>
      collectGroups m (insertGroup acc collectionName (modeToken t m)) ts

/-- Source: `groupTokensByCollectionAndMode`. -/
def groupTokensByCollectionAndMode (tokens : List Token) (m : JStr)
    (regexPatterns : List Pattern) : Except JStr (List (JStr × List Token)) :=
  collectGroups m [] (tokens.filter (modeFilterPass regexPatterns m))

/-- Source: `createResourceDictionaryForMode` — exclusion filter applied to
token ids inside `createResourceDictionary`. -/
def filterExcluded (tokens : List Token) (regexPatterns : List Pattern) :
    List Token :=
  tokens.filter (fun token => !(regexPatterns.any (fun regex => regex token.id)))

/-- Source: `groupTokensByType`. -/
def groupTokensByType (tokens : List Token) : List (JStr × List Token) :=
  tokens.foldl (fun acc token => insertGroup acc token.type token) []

/-- The root-element opening of the base document. -/
def xamlHeader : JStr :=
  js ("<ResourceDictionary xmlns=\"http://schemas.microsoft.com/winfx/2006/xaml/presentation\"\n                      xmlns:x=\"http://schemas.microsoft.com/winfx/2006/xaml\">\n")

/-- The root-element opening of a mode document (different indentation in the
source template literal). -/
def modeXamlHeader : JStr :=
  js ("<ResourceDictionary xmlns=\"http://schemas.microsoft.com/winfx/2006/xaml/presentation\"\n                          xmlns:x=\"http://schemas.microsoft.com/winfx/2006/xaml\">\n")

/-- Source: `convertShadowToMAUI` (latest revision): a group comment chosen
by the inset flag, then one `<Shadow>` element per layer — keys suffixed with
a 1-based index when there is more than one layer — each drop-shadow layer
followed by a margin comment derived from its spread. -/
def convertShadowToMAUI (token : Token) (value : List ShadowLayer) : JStr :=
  let shadowCount := value.length
  let isInsetGroup := value.any (fun shadow => shadow.inset)
  let groupComment : JStr :=
    if isInsetGroup then
      js ("  <!-- Inset shadows for ") ++ token.id ++
        js (". All tokens in this group should be used together. Apply using clipped borders inside the main component. Ensure the Z-index is set higher so shadows are visible within the component content. -->")
    else
      js ("  <!-- Drop shadows for ") ++ token.id ++
        js (". All tokens in this group should be used together. Apply using separate Frames behind the main component. Ensure the Z-index is set lower so shadows appear behind the component content. -->")
  let layerLines : List JStr :=
    (value.enum.map (fun p =>
      let index := p.1
      let shadow := p.2
      let key : JStr :=
        if shadowCount > 1 then token.id ++ '-' :: natToStr (index + 1)
        else token.id
      let margin := jsParseFloat (replaceFirst shadow.spread (js ("px")) [])
      let elem : JStr :=
        js ("  <Shadow x:Key=\"") ++ key ++ js ("\" Brush=\"") ++ shadow.color ++
          js ("\" Radius=\"") ++ parseDimension shadow.blur ++
          js ("\" Opacity=\"1\" Offset=\"") ++ parseDimension shadow.offsetX ++
          js (",") ++ parseDimension shadow.offsetY ++ js ("\"/>")
      if shadow.inset then [elem]
      else [elem,
        js ("  <!-- Frame for drop shadow (Key: ") ++ key ++
          js (") should have a Margin=\"") ++ jnumToStr margin ++ js (",") ++
          jnumToStr margin ++ js (",") ++ jnumToStr margin ++ js (",") ++
          jnumToStr margin ++ js ("\" relative to the main component. -->")])).flatten
  (List.intersperse (js ("\n")) (groupComment :: layerLines)).flatten ++ js ("\n")

/-- Source: `convertTypographyToXAML` (latest revision): a `<Style>` block
with one setter per typographic attribute, the font family synthesised with
the weight suffix. -/
def convertTypographyToXAML (token : Token) (value : TypographyVal) : JStr :=
  let fontSizePx := jsParseFloat (replaceFirst value.fontSize (js ("px")) [])
  js ("\n<Style x:Key=\"") ++ token.id ++ js ("\" TargetType=\"Label\">\n<Setter Property=\"FontFamily\" Value=\"") ++
    convertFontWeightToFontFamily value.fontFamily value.fontWeight ++
    js ("\" />\n<Setter Property=\"FontSize\" Value=\"") ++
    parseDimension (.str value.fontSize) ++
    js ("\" />\n<Setter Property=\"LineHeight\" Value=\"") ++
    toFixed3 (jdiv (jsParseFloat (replaceFirst value.lineHeight (js ("px")) [])) (some 16)) ++
    js ("\" />\n<Setter Property=\"CharacterSpacing\" Value=\"") ++
    optIntToStr (parseLetterSpacing value.letterSpacing fontSizePx) ++
    js ("\" />\n<Setter Property=\"TextDecorations\" Value=\"") ++
    (if value.textDecoration = js ("NONE") then js ("None")
     else convertTextDecoration value.textDecoration) ++
    js ("\" />\n<Setter Property=\"TextTransform\" Value=\"") ++
    convertTextCase value.textCase ++
    js ("\" />\n</Style>\n")

/-- Source: `convertTokenToMAUI` — select the mode override when a truthy
mode is supplied and the token has a truthy override for it, then dispatch on
`$type`; an unrecognised type yields the empty fragment. -/
def convertTokenToMAUI (token : Token) (mode : Option JStr) : JStr :=
  let value : Value :=
    match mode with
    | some m =>
      if !m.isEmpty && hasModeVal token m then
        (modeOverrideVal token m).getD token.value
      else token.value
    | none => token.value
  if token.type = js ("color") then
    js ("  <Color x:Key=\"") ++ token.id ++ js ("\">") ++
      convertColorFormat value.asStr ++ js ("</Color>\n")
  else if token.type = js ("dimension") then
    js ("  <x:Double x:Key=\"") ++ token.id ++ js ("\">") ++
      parseDimension value.toJSVal ++ js ("</x:Double>\n")
  else if token.type = js ("shadow") then
    (match value with
     | .shadows layers => convertShadowToMAUI token layers
     | _ => []) ++ js ("\n")
  else if token.type = js ("typography") then
    (match value with
     | .typo tv => convertTypographyToXAML token tv
     | _ => []) ++ js ("\n")
  else []

/-- Source: `createResourceDictionary` — root wrapper, then one section
comment and the converted fragments per type group. -/
def createResourceDictionary (tokens : List Token)
    (regexPatterns : List Pattern) (convertFunction : Token → JStr) : JStr :=
  let filteredTokens := filterExcluded tokens regexPatterns
  let groupedTokens := groupTokensByType filteredTokens
  xamlHeader ++
    (groupedTokens.foldl (fun s e =>
      s ++ js ("\n  <!-- ") ++ e.1.map Char.toUpper ++ js (" Tokens -->\n") ++
        (e.2.map convertFunction).flatten ++ js ("\n")) []) ++
    js ("\n</ResourceDictionary>")

/-- The deterministic mode-document filename template
`<outputDirectory>/theme.<collection>.<mode>.xaml`. -/
def modeDocName (outputDirectory collectionName m : JStr) : JStr :=
  outputDirectory ++ js ("/theme.") ++ collectionName ++ js (".") ++ m ++
    js (".xaml")

/-- Source: `createResourceDictionaryForMode` — one root-wrapped document per
collection present in the mode, named from the filename template; an error in
the grouping is rethrown with the mode in the message. -/
def createResourceDictionaryForMode (tokens : List Token)
    (regexPatterns : List Pattern) (m outputDirectory : JStr) :
    Except JStr (List OutputFile) :=
  match groupTokensByCollectionAndMode tokens m regexPatterns with
  | .error _ =>
    .error (js ("Failed to create resource dictionary for mode ") ++ m ++
      js (" due to an internal error."))
  | .ok groupedTokens =>
    .ok (groupedTokens.map (fun e =>
      { filename := modeDocName outputDirectory e.1 m
        contents := modeXamlHeader ++
          (e.2.map (fun t => convertTokenToMAUI t none)).flatten ++
          js ("</ResourceDictionary>") }))

/-- The recognised option keys of `pluginMAUI`; the `filename` key is carried
because a caller supplies it, though this revision never reads it. -/
structure Options where
  excludePatterns : List JStr := []
  outputDirectory : JStr := js ("./")
  filename : Option JStr := none

/-- The diagnostics of a failed build: the message handed to `console.error`
by the outer catch, and the message of the `Error` thrown to the caller. -/
structure BuildErr where
  logged : JStr
  thrown : JStr
deriving DecidableEq

/-- The generic message thrown by the outer catch of `build`. -/
def buildFailMsg : JStr :=
  js ("Failed to build themes due to an internal error.")

/-- Source: `excludePatterns.map(pattern => { try ... new RegExp(pattern) ... })`
— compile every pattern, throwing a descriptive error at the first invalid
one.  `compile` abstracts the `new RegExp` constructor: `none` models a
pattern it rejects. -/
def compilePatterns (compile : JStr → Option Pattern) :
    List JStr → Except JStr (List Pattern)
  | [] => .ok []
  | p :: ps =>
    match compile p with
    | none => .error (js ("Invalid regex pattern: ") ++ p)
    | some regex =>
      match compilePatterns compile ps with
      | .error e => .error e
      | .ok rest => .ok (regex :: rest)

/-- The `allModes.forEach` loop of `build`: mode outputs for every detected
mode, appended in order; the first failure aborts. -/
def modeOutputsFor (tokens : List Token) (regexPatterns : List Pattern)
    (outputDirectory : JStr) : List JStr → Except JStr (List OutputFile)
  | [] => .ok []
  | m :: ms =>
    match createResourceDictionaryForMode tokens regexPatterns m outputDirectory with
    | .error e => .error e
    | .ok outs =>
      match modeOutputsFor tokens regexPatterns outputDirectory ms with
      | .error e => .error e
      | .ok rest => .ok (outs ++ rest)

/-- Source: the `build` method of `pluginMAUI` (latest revision): detect
modes, compile the exclusion patterns, emit the base document
`<outputDirectory>/theme.xaml` followed by the per-mode documents; any
error is logged and replaced by the generic internal-error message. -/
def build (compile : JStr → Option Pattern) (options : Options)
    (tokens : List Token) : Except BuildErr (List OutputFile) :=
  let allModes := detectAllModes tokens
  match compilePatterns compile options.excludePatterns with
  | .error msg => .error { logged := msg, thrown := buildFailMsg }
  | .ok regexPatterns =>
    let baseContent :=
      createResourceDictionary tokens regexPatterns
        (fun t => convertTokenToMAUI t none)
    match modeOutputsFor tokens regexPatterns options.outputDirectory allModes with
    | .error msg => .error { logged := msg, thrown := buildFailMsg }
    | .ok outs =>
      .ok ({ filename := options.outputDirectory ++ js ("/theme.xaml")
             contents := baseContent } :: outs)

end PluginMAUI

namespace PluginXAML

/-- Source: `convertTokenToXAML` (pluginXAML) — `color` and `dimension`
tokens become leaf elements with the raw value interpolated; other types
produce the empty fragment. -/
def convertTokenToXAML (token : Token) : JStr :=
  if token.type = js ("color") then
    js ("  <Color x:Key=\"") ++ token.id ++ js ("\">") ++ token.value.asStr ++
      js ("</Color>")
  else if token.type = js ("dimension") then
    js ("  <Double x:Key=\"") ++ token.id ++ js ("\">") ++ token.value.asStr ++
      js ("</Double>")
  else []

/-- The option record of `pluginXAML`: only `filename` is read. -/
structure Options where
  filename : Option JStr := none

/-- The root-element opening of the pluginXAML document. -/
def xamlHeader : JStr :=
  js ("<ResourceDictionary xmlns=\"http://schemas.microsoft.com/winfx/2006/xaml/presentation\"\n                          xmlns:x=\"http://schemas.microsoft.com/winfx/2006/xaml\"\n                          xmlns:sys=\"clr-namespace:System;assembly=mscorlib\">\n")

/-- Model of the JavaScript `||` default (`options.filename || "default.xaml"`):
a missing or falsy (empty) string falls back to the default. -/
def jsOrStr (o : Option JStr) (d : JStr) : JStr :=
  match o with
  | some s => if s.isEmpty then d else s
  | none => d

/-- Source: the `build` method of `pluginXAML`: one document whose name is
`options.filename || "default.xaml"`, the fragments joined by newlines. -/
def build (options : Options) (tokens : List Token) : List OutputFile :=
  let xamlContent :=
    xamlHeader ++
      (List.intersperse (js ("\n")) (tokens.map convertTokenToXAML)).flatten ++
      js ("\n</ResourceDictionary>")
  [{ filename := jsOrStr options.filename (js ("default.xaml"))
     contents := xamlContent }]

end PluginXAML

namespace Postprocess

/-- Opening-parenthesis count minus closing-parenthesis count of a line
(the `(line.match(/\(/g) || []).length` bookkeeping). -/
def parenDelta (line : JStr) : Int :=
  (line.countP (fun x => x = '(') : Int) -
    (line.countP (fun x => x = ')') : Int)

/-- The block-start test: the trimmed line begins with the reserved group
name (the string `"colorbase`, leading double quote included). -/
def isColorbaseDecl (line : JStr) : Bool :=
  startsWithJ (jsTrim line) (js ("\"colorbase"))

/-- Source: the line loop of `processSCSSFile` — a state machine carrying
the in-block flag and the running parenthesis count; lines inside a
`"colorbase` block are skipped, all other lines are kept in order. -/
def processLines : Bool → Int → List JStr → List JStr
  | _, _, [] => []
  | inColorBaseBlock, parenthesisCount, line :: rest =>
    if (if !inColorBaseBlock && isColorbaseDecl line then true
        else inColorBaseBlock) then
      if parenthesisCount + parenDelta line = 0 then
        processLines false (parenthesisCount + parenDelta line) rest
      else processLines true (parenthesisCount + parenDelta line) rest
    else
      line :: processLines inColorBaseBlock parenthesisCount rest

/-- Model of `data.split('\n')`. -/
def splitNl : JStr → List JStr
  | [] => [[]]
  | c :: cs =>
    if c = '\n' then [] :: splitNl cs
    else (c :: (splitNl cs).headD []) :: (splitNl cs).tail

/-- Model of `filteredLines.join('\n')`. -/
def joinNl : List JStr → JStr
  | [] => []
  | [l] => l
  | l :: l2 :: ls => l ++ '\n' :: joinNl (l2 :: ls)

/-- Source: the whole text transform of `processSCSSFile` (the file I/O
around it is excluded): split into lines, drop `"colorbase` blocks, join. -/
def processSCSS (text : JStr) : JStr :=
  joinNl (processLines false 0 (splitNl text))

/-- Sum of the per-line parenthesis deltas of a block prefix. -/
def deltaSum (lines : List JStr) : Int :=
  (lines.map parenDelta).sum

end Postprocess

/-- Sample token with a dark-mode override and a collection, used to
instantiate the universally quantified theorems. -/
def sampleToken : Token :=
  { id := js ("color-primary")
    type := js ("color")
    value := .str (js ("#112233"))
    extensions := some
      { mode := some [(js ("dark"), .str (js ("#000000")))]
        figmaCollectionName := some (js ("Base")) } }

/-- Sample token whose dark-mode override is the empty string (falsy in
JavaScript), with a collection name. -/
def falsyOverrideToken : Token :=
  { id := js ("color-falsy")
    type := js ("color")
    value := .str (js ("#112233"))
    extensions := some
      { mode := some [(js ("dark"), .str (js ("")))]
        figmaCollectionName := some (js ("Base")) } }

/-- Sample token without extensions. -/
def plainToken : Token :=
  { id := js ("colorbase-red")
    type := js ("color")
    value := .str (js ("#ff0000"))
    extensions := none }

/-- Sample compiled pattern matching ids that start with `colorbase`. -/
def patColorbase : Pattern := fun s => startsWithJ s (js ("colorbase"))

/-- A `new RegExp` model that rejects every pattern source. -/
def compileNone : JStr → Option Pattern := fun _ => none

/-- A `new RegExp` model that accepts every pattern source and compiles it
to a never-matching test. -/
def compileAny : JStr → Option Pattern := fun _ => some (fun _ => false)

theorem infix_of_infix_cons {l cs : JStr} {c : Char} (h : l <:+: cs) :
    l <:+: c :: cs := by
  obtain ⟨s, t, rfl⟩ := h
  exact ⟨c :: s, t, by simp⟩

theorem replaceFirst_strip (N : JStr) (h : ¬ js ("px") <:+: N) :
    replaceFirst (N ++ js ("px")) (js ("px")) [] = N := by
  induction N with
  | nil => rfl
  | cons c cs ih =>
    have hcs : ¬ js ("px") <:+: cs := fun hx => h (infix_of_infix_cons hx)
    have hpf : (js ("px")).isPrefixOf (c :: cs ++ js ("px")) = false := by
      cases cs with
      | nil =>
        simp [List.isPrefixOf, js]
      | cons c2 cs2 =>
        by_contra hcontra
        rw [Bool.not_eq_false] at hcontra
        have hc : c = 'p' ∧ c2 = 'x' := by
          have := hcontra
          simp only [js, List.isPrefixOf, List.cons_append, Bool.and_eq_true,
            beq_iff_eq] at this
          exact ⟨this.1.symm, this.2.1.symm⟩
        obtain ⟨rfl, rfl⟩ := hc
        exact h ⟨[], cs2, by simp [js]⟩
    show replaceFirst (c :: (cs ++ js ("px"))) (js ("px")) [] = c :: cs
    rw [replaceFirst]
    simp only [← List.cons_append, hpf, Bool.false_eq_true, if_false]
    exact congrArg (c :: ·) (ih hcs)

/-- C2: for every list of exclusion patterns and every token collection, the
exclusion filter of `createResourceDictionary` returns a sublist of the
original collection — every kept token is an element of the input in its
original relative order — and no surviving token's `id` matches any of the
supplied patterns. -/
theorem exclusionFilter_subset (regexPatterns : List Pattern)
    (tokens : List Token) :
    List.Sublist (PluginMAUI.filterExcluded tokens regexPatterns) tokens ∧
    ∀ t ∈ PluginMAUI.filterExcluded tokens regexPatterns,
      ∀ p ∈ regexPatterns, p t.id = false := by
  refine ⟨List.filter_sublist tokens, ?_⟩
  intro t ht p hp
  have h := List.of_mem_filter ht
  simp only [Bool.not_eq_true', List.any_eq_false] at h
  exact Bool.not_eq_true _ ▸ h p hp

/-- Witness for C2 at a concrete pattern list and token collection. -/
theorem exclusionFilter_subset_witness :
    List.Sublist (PluginMAUI.filterExcluded [plainToken, sampleToken] [patColorbase])
      [plainToken, sampleToken] ∧
    patColorbase sampleToken.id = false := by
  obtain ⟨h1, h2⟩ := exclusionFilter_subset [patColorbase] [plainToken, sampleToken]
  refine ⟨h1, h2 sampleToken (by decide) patColorbase (by simp)⟩

/-- C3: for every string of the form `Npx` where `N` is the decimal
representation of a number (so `N` contains no occurrence of `px`),
`parseDimension` returns `N` with the pixel suffix stripped; every non-string
input and every string not ending in `px` yields the literal `16`. -/
theorem parseDimension_spec :
    (∀ N : JStr,
      (N ≠ [] ∧ ∀ c ∈ N, isDig c = true ∨ c = '.' ∨ c = '-') →
      ¬ js ("px") <:+: N →
      PluginMAUI.parseDimension (.str (N ++ js ("px"))) = N) ∧
    (∀ v : JSVal, (∀ s, v ≠ .str s) →
      PluginMAUI.parseDimension v = js ("16")) ∧
    (∀ s : JStr, endsWithJ s (js ("px")) = false →
      PluginMAUI.parseDimension (.str s) = js ("16")) := by
  refine ⟨?_, ?_, ?_⟩
  · intro N _ hinf
    have hends : endsWithJ (N ++ js ("px")) (js ("px")) = true := by
      simp [endsWithJ, List.isSuffixOf_iff_suffix]
    simp only [PluginMAUI.parseDimension, hends, if_true]
    exact replaceFirst_strip N hinf
  · intro v hv
    cases v with
    | str s => exact absurd rfl (hv s)
    | num q => rfl
    | bool b => rfl
    | null => rfl
  · intro s hs
    simp [PluginMAUI.parseDimension, hs]

/-- Witness for C3 at the concrete inputs `"42px"`, the number `42` and the
suffixless string `"42"`. -/
theorem parseDimension_spec_witness :
    PluginMAUI.parseDimension (.str (js ("42") ++ js ("px"))) = js ("42") ∧
    PluginMAUI.parseDimension (.num 42) = js ("16") ∧
    PluginMAUI.parseDimension (.str (js ("42"))) = js ("16") := by
  refine ⟨parseDimension_spec.1 (js ("42")) ⟨by decide, by decide⟩ (by decide),
    parseDimension_spec.2.1 (.num 42) (fun s => by simp),
    parseDimension_spec.2.2 (js ("42")) (by decide)⟩

/-- C4: every 9-character color `#rrggbbaa` whose trailing 8 characters are
hexadecimal digits is rearranged by `convertColorFormat` to `#aarrggbb`;
every string not of that form is returned unchanged. -/
theorem convertColorFormat_spec :
    (∀ rr gg bb aa : JStr,
      rr.length = 2 → gg.length = 2 → bb.length = 2 → aa.length = 2 →
      (rr ++ gg ++ bb ++ aa).all isHexDig = true →
      PluginMAUI.convertColorFormat ('#' :: (rr ++ gg ++ bb ++ aa)) =
        '#' :: (aa ++ rr ++ gg ++ bb)) ∧
    (∀ s : JStr,
      (match s with
       | c :: rest => c = '#' && rest.length = 8 && rest.all isHexDig
       | [] => false) = false →
      PluginMAUI.convertColorFormat s = s) := by
  constructor
  · intro rr gg bb aa hrr hgg hbb haa hhex
    have hlen : (rr ++ gg ++ bb ++ aa).length = 8 := by
      simp [hrr, hgg, hbb, haa]
    have hlen6 : (rr ++ gg ++ bb).length = 6 := by simp [hrr, hgg, hbb]
    have hrw : rr ++ gg ++ bb ++ aa = (rr ++ gg ++ bb) ++ aa := by
      simp only [List.append_assoc]
    have hcond2 : (decide (('#' : Char) = '#') &&
        decide ((rr ++ gg ++ bb ++ aa).length = 8) &&
        (rr ++ gg ++ bb ++ aa).all isHexDig) = true := by
      simp only [hlen, hhex]
      simp
    unfold PluginMAUI.convertColorFormat
    split
    · have hdrop7 : ('#' :: (rr ++ gg ++ bb ++ aa)).drop 7 = aa := by
        rw [List.drop_succ_cons, hrw, List.drop_left' hlen6]
      have hdrop1 : (('#' :: (rr ++ gg ++ bb ++ aa)).drop 1).take 6 =
          rr ++ gg ++ bb := by
        rw [List.drop_succ_cons, List.drop_zero, hrw, List.take_left' hlen6]
      rw [hdrop7, hdrop1, List.take_of_length_le (le_of_eq haa)]
      simp [List.append_assoc]
    · next hcond => exact absurd hcond2 hcond
  · intro s hs
    unfold PluginMAUI.convertColorFormat
    split
    · next hcond =>
        exfalso
        rw [hs] at hcond
        exact Bool.false_ne_true hcond
    · rfl

/-- Witness for C4 at the concrete colors `#11223344` and `#112233`. -/
theorem convertColorFormat_spec_witness :
    PluginMAUI.convertColorFormat ('#' :: (js ("11") ++ js ("22") ++ js ("33") ++ js ("44"))) =
      '#' :: (js ("44") ++ js ("11") ++ js ("22") ++ js ("33")) ∧
    PluginMAUI.convertColorFormat (js ("#112233")) = js ("#112233") := by
  refine ⟨convertColorFormat_spec.1 (js ("11")) (js ("22")) (js ("33")) (js ("44"))
      rfl rfl rfl rfl (by decide),
    convertColorFormat_spec.2 (js ("#112233")) (by decide)⟩

theorem endsWith_px_not_pct (s : JStr) (h : endsWithJ s (js ("px")) = true) :
    endsWithJ s (js ("%")) = false := by
  rw [endsWithJ, List.isSuffixOf_iff_suffix] at h
  obtain ⟨u, rfl⟩ := h
  rw [endsWithJ]
  by_contra hp
  rw [Bool.not_eq_false, List.isSuffixOf_iff_suffix] at hp
  obtain ⟨w, hw⟩ := hp
  have h1 : (u ++ js ("px")).getLast? = some 'x' := by
    have : u ++ js ("px") = (u ++ ['p']) ++ ['x'] := by simp [js]
    rw [this, List.getLast?_concat]
  have h2 : (u ++ js ("px")).getLast? = some '%' := by
    rw [← hw]
    have : w ++ js ("%") = w ++ ['%'] := rfl
    rw [this, List.getLast?_concat]
  rw [h1] at h2
  exact absurd (Option.some.inj h2) (by decide)

/-- C5: the percentage form and the pixel form of the same physical letter
spacing yield the same per-mille integer: concretely
`parseLetterSpacing "10%" 16 = parseLetterSpacing "1.6px" 16 = 100`, and in
general a `%`-string parsing to `p` and a `px`-string parsing to
`p / 100 * f` agree at every positive font size `f`. -/
theorem parseLetterSpacing_unit_consistency :
    (PluginMAUI.parseLetterSpacing (.str (js ("10%"))) (some 16) = some 100 ∧
     PluginMAUI.parseLetterSpacing (.str (js ("1.6px"))) (some 16) = some 100) ∧
    (∀ (p f : ℚ) (sp sx : JStr), 0 < f →
      endsWithJ sp (js ("%")) = true → jsParseFloat sp = some p →
      endsWithJ sx (js ("px")) = true → jsParseFloat sx = some (p / 100 * f) →
      PluginMAUI.parseLetterSpacing (.str sp) (some f) =
        PluginMAUI.parseLetterSpacing (.str sx) (some f)) := by
  constructor
  · have hp10 : jsParseFloat (js ("10%")) =
        some (((10 : ℕ) : ℚ) + ((0 : ℕ) : ℚ) / (10 : ℚ) ^ (0 : ℕ)) := rfl
    have hp16 : jsParseFloat (js ("1.6px")) =
        some (((1 : ℕ) : ℚ) + ((6 : ℕ) : ℚ) / (10 : ℚ) ^ (1 : ℕ)) := rfl
    have he1 : endsWithJ (js ("10%")) (js ("%")) = true := rfl
    have he2 : endsWithJ (js ("1.6px")) (js ("%")) = false := rfl
    have he3 : endsWithJ (js ("1.6px")) (js ("px")) = true := rfl
    constructor
    · simp only [PluginMAUI.parseLetterSpacing, he1, if_true, hp10, jdiv,
        jmul, jround]
      norm_num
    · simp only [PluginMAUI.parseLetterSpacing, he2, Bool.false_eq_true,
        if_false, he3, if_true, hp16, jdiv, jmul, jround]
      norm_num
  · intro p f sp sx hf hsp hp hsx hx
    have hf0 : f ≠ 0 := ne_of_gt hf
    have hnp : endsWithJ sx (js ("%")) = false := endsWith_px_not_pct sx hsx
    simp only [PluginMAUI.parseLetterSpacing, hsp, hsx, hnp, if_true,
      Bool.false_eq_true, if_false, hp, hx]
    simp only [jdiv, jmul, jround]
    simp [hf0]

/-- Witness for C5's general unit-consistency statement at
`p = 10`, `f = 16`, `"10%"` and `"1.6px"`. -/
theorem parseLetterSpacing_unit_consistency_witness :
    PluginMAUI.parseLetterSpacing (.str (js ("10%"))) (some 16) =
      PluginMAUI.parseLetterSpacing (.str (js ("1.6px"))) (some 16) := by
  refine parseLetterSpacing_unit_consistency.2 10 16 (js ("10%")) (js ("1.6px"))
    (by decide) rfl ?_ rfl ?_
  · have h1 : jsParseFloat (js ("10%")) =
        some (((10 : ℕ) : ℚ) + ((0 : ℕ) : ℚ) / (10 : ℚ) ^ (0 : ℕ)) := rfl
    rw [h1]
    norm_num
  · have h2 : jsParseFloat (js ("1.6px")) =
        some (((1 : ℕ) : ℚ) + ((6 : ℕ) : ℚ) / (10 : ℚ) ^ (1 : ℕ)) := rfl
    rw [h2]
    norm_num

/-- C6: `convertFontWeight` maps each multiple of 100 from 100 to 900
through the fixed name table (700 to `Bold`); a string input is
whitespace-stripped and case-normalised and returned in normalised form when
it lands in the valid name set; every unrecognised input of either kind
yields `Regular`.  The latest revision's `convertFontWeightToFontFamily`
computes the same weight name and appends it to the font family. -/
theorem convertFontWeight_spec :
    (PluginMAUI2.convertFontWeight (.num 100) = js ("Thin") ∧
     PluginMAUI2.convertFontWeight (.num 200) = js ("ExtraLight") ∧
     PluginMAUI2.convertFontWeight (.num 300) = js ("Light") ∧
     PluginMAUI2.convertFontWeight (.num 400) = js ("Regular") ∧
     PluginMAUI2.convertFontWeight (.num 500) = js ("Medium") ∧
     PluginMAUI2.convertFontWeight (.num 600) = js ("SemiBold") ∧
     PluginMAUI2.convertFontWeight (.num 700) = js ("Bold") ∧
     PluginMAUI2.convertFontWeight (.num 800) = js ("ExtraBold") ∧
     PluginMAUI2.convertFontWeight (.num 900) = js ("Black")) ∧
    (PluginMAUI2.convertFontWeight (.str (js ("bold"))) = js ("Bold") ∧
     PluginMAUI2.convertFontWeight (.str (js ("nonsense"))) = js ("Regular")) ∧
    (∀ w : JStr,
      PluginMAUI.normalizeWeight w ∈ PluginMAUI.validFontWeights →
      PluginMAUI2.convertFontWeight (.str w) = PluginMAUI.normalizeWeight w) ∧
    (∀ w : JStr,
      PluginMAUI.normalizeWeight w ∉ PluginMAUI.validFontWeights →
      PluginMAUI2.convertFontWeight (.str w) = js ("Regular")) ∧
    (∀ q : ℚ,
      q ∉ ([100, 200, 300, 400, 500, 600, 700, 800, 900] : List ℚ) →
      PluginMAUI2.convertFontWeight (.num q) = js ("Regular")) ∧
    (PluginMAUI2.convertFontWeight .null = js ("Regular") ∧
     ∀ b, PluginMAUI2.convertFontWeight (.bool b) = js ("Regular")) ∧
    (∀ (fontFamily : JStr) (weight : JSVal),
      PluginMAUI.convertFontWeightToFontFamily fontFamily weight =
        fontFamily ++ PluginMAUI2.convertFontWeight weight) := by
  refine ⟨?_, ?_, ?_, ?_, ?_, ⟨rfl, fun b => rfl⟩, ?_⟩
  · refine ⟨?_, ?_, ?_, ?_, ?_, ?_, ?_, ?_, ?_⟩ <;>
      norm_num [PluginMAUI2.convertFontWeight, PluginMAUI.weightTable, js]
  · constructor
    · have h : PluginMAUI.normalizeWeight (js ("bold")) = js ("Bold") := rfl
      simp only [PluginMAUI2.convertFontWeight, h]
      rw [if_pos (by decide)]
    · have h : PluginMAUI.normalizeWeight (js ("nonsense")) = js ("Nonsense") := rfl
      simp only [PluginMAUI2.convertFontWeight, h]
      rw [if_neg (by decide)]
  · intro w hw
    simp only [PluginMAUI2.convertFontWeight]
    rw [if_pos hw]
  · intro w hw
    simp only [PluginMAUI2.convertFontWeight]
    rw [if_neg hw]
  · intro q hq
    simp only [List.mem_cons, List.mem_singleton, not_or] at hq
    obtain ⟨h1, h2, h3, h4, h5, h6, h7, h8, h9, _⟩ := hq
    simp only [PluginMAUI2.convertFontWeight, PluginMAUI.weightTable,
      if_neg h1, if_neg h2, if_neg h3, if_neg h4, if_neg h5, if_neg h6,
      if_neg h7, if_neg h8, if_neg h9]
  · intro fontFamily weight
    cases weight <;> rfl

/-- Witness for C6 at the concrete inputs `"light"` (a recognised name
needing normalisation) and the numeric weight `350` (not in the table). -/
theorem convertFontWeight_spec_witness :
    PluginMAUI2.convertFontWeight (.str (js ("light"))) = js ("Light") ∧
    PluginMAUI2.convertFontWeight (.num 350) = js ("Regular") := by
  constructor
  · have h := convertFontWeight_spec.2.2.1 (js ("light")) (by decide)
    rw [h]
    rfl
  · exact convertFontWeight_spec.2.2.2.2.1 350 (by norm_num)

theorem insertGroup_forall {P : Token → Prop} {acc : List (JStr × List Token)}
    {key : JStr} {tk : Token}
    (hacc : ∀ e ∈ acc, ∀ x ∈ e.2, P x) (htk : P tk) :
    ∀ e ∈ insertGroup acc key tk, ∀ x ∈ e.2, P x := by
  intro e he x hx
  unfold insertGroup at he
  split at he
  · obtain ⟨e0, he0, rfl⟩ := List.mem_map.mp he
    by_cases hkey : e0.1 = key
    · rw [if_pos hkey] at hx
      rcases List.mem_append.mp hx with hmem | hmem
      · exact hacc e0 he0 x hmem
      · rw [List.mem_singleton.mp hmem]
        exact htk
    · rw [if_neg hkey] at hx
      exact hacc e0 he0 x hx
  · rcases List.mem_append.mp he with hmem | hmem
    · exact hacc e hmem x hx
    · obtain rfl := List.mem_singleton.mp hmem
      have hxe : x = tk := List.mem_singleton.mp hx
      rw [hxe]
      exact htk

theorem collectGroups_forall {m : JStr} {P : Token → Prop} :
    ∀ (l : List Token) (acc groups : List (JStr × List Token)),
    (∀ e ∈ acc, ∀ x ∈ e.2, P x) →
    (∀ t ∈ l, P (PluginMAUI.modeToken t m)) →
    PluginMAUI.collectGroups m acc l = .ok groups →
    ∀ e ∈ groups, ∀ x ∈ e.2, P x := by
  intro l
  induction l with
  | nil =>
    intro acc groups hacc _ hok
    cases hok
    exact hacc
  | cons t ts ih =>
    intro acc groups hacc hl hok
    rw [PluginMAUI.collectGroups] at hok
    cases hcn : PluginMAUI.collectionNameOf t with
    | none => rw [hcn] at hok; cases hok
    | some cn =>
      rw [hcn] at hok
      exact ih _ _
        (insertGroup_forall hacc (hl t (List.mem_cons_self t ts)))
        (fun u hu => hl u (List.mem_cons_of_mem t hu)) hok

/-- C10: mode documents honor the exclusion patterns: whenever the
collection-and-mode grouping succeeds, every token of every produced group
has an `id` matching none of the compiled patterns, because
`groupTokensByCollectionAndMode` filters on the patterns before partitioning
by collection. -/
theorem modeGrouping_respects_excludes (tokens : List Token) (m : JStr)
    (regexPatterns : List Pattern) (groups : List (JStr × List Token))
    (h : PluginMAUI.groupTokensByCollectionAndMode tokens m regexPatterns =
      .ok groups) :
    ∀ e ∈ groups, ∀ t ∈ e.2, ∀ p ∈ regexPatterns, p t.id = false := by
  have hfilter : ∀ t ∈ tokens.filter (PluginMAUI.modeFilterPass regexPatterns m),
      ∀ p ∈ regexPatterns, p t.id = false := by
    intro t ht p hp
    have hpass := List.of_mem_filter ht
    rw [PluginMAUI.modeFilterPass, Bool.and_eq_true] at hpass
    have := hpass.2
    simp only [Bool.not_eq_true', List.any_eq_false] at this
    exact Bool.not_eq_true _ ▸ this p hp
  intro e he t ht p hp
  refine collectGroups_forall
    (P := fun t => ∀ p ∈ regexPatterns, p t.id = false)
    (tokens.filter (PluginMAUI.modeFilterPass regexPatterns m)) [] groups
    (by simp) ?_ h e he t ht p hp
  intro u hu
  have : (PluginMAUI.modeToken u m).id = u.id := rfl
  intro p' hp'
  rw [this]
  exact hfilter u hu p' hp'

/-- Witness for C10 at a concrete token collection, mode and pattern list. -/
theorem modeGrouping_respects_excludes_witness :
    patColorbase (PluginMAUI.modeToken sampleToken (js ("dark"))).id = false := by
  refine modeGrouping_respects_excludes [sampleToken] (js ("dark")) [patColorbase]
    [(js ("Base"), [PluginMAUI.modeToken sampleToken (js ("dark"))])] rfl
    (js ("Base"), [PluginMAUI.modeToken sampleToken (js ("dark"))])
    (by decide) (PluginMAUI.modeToken sampleToken (js ("dark"))) (by decide)
    patColorbase (by simp)

/-- Counterexample to C7: with the invalid pattern `(`, the build does abort,
but the error it throws to the caller is the fixed generic message
`Failed to build themes due to an internal error.`, which does not identify
the offending pattern (the descriptive message only reaches the console
log). -/
theorem build_invalidPattern_counterexample :
    PluginMAUI.build compileNone ⟨[js ("(")], js ("."), none⟩ [] =
      .error ⟨js ("Invalid regex pattern: ") ++ js ("("),
        PluginMAUI.buildFailMsg⟩ ∧
    containsSub PluginMAUI.buildFailMsg (js ("(")) = false :=
  ⟨rfl, by decide⟩

theorem compilePatterns_fails (compile : JStr → Option Pattern) :
    ∀ ps : List JStr, (∃ p ∈ ps, compile p = none) →
    ∃ q ∈ ps, compile q = none ∧
      PluginMAUI.compilePatterns compile ps =
        .error (js ("Invalid regex pattern: ") ++ q) := by
  intro ps
  induction ps with
  | nil =>
    rintro ⟨p, hp, _⟩
    cases hp
  | cons p ps ih =>
    rintro ⟨r, hr, hrc⟩
    cases hc : compile p with
    | none =>
      refine ⟨p, List.mem_cons_self p ps, hc, ?_⟩
      rw [PluginMAUI.compilePatterns, hc]
    | some pat =>
      have hrps : r ∈ ps := by
        rcases List.mem_cons.mp hr with rfl | h2
        · rw [hc] at hrc; cases hrc
        · exact h2
      obtain ⟨q, hq, hqc, heq⟩ := ih ⟨r, hrps, hrc⟩
      refine ⟨q, List.mem_cons_of_mem _ hq, hqc, ?_⟩
      rw [PluginMAUI.compilePatterns, hc, heq]

/-- C7 as amended: when `excludePatterns` contains a pattern the regular
expression compiler rejects, the build fails fast with an error and returns
no output list, and the failure does not depend on the token collection; the
descriptive message naming the first invalid pattern is logged to the
console, while the error thrown to the caller carries the fixed generic
internal-error message. -/
theorem build_invalidPattern_amended (compile : JStr → Option Pattern)
    (options : PluginMAUI.Options) (tokens : List Token)
    (h : ∃ p ∈ options.excludePatterns, compile p = none) :
    ∃ q, q ∈ options.excludePatterns ∧ compile q = none ∧
      PluginMAUI.build compile options tokens =
        .error ⟨js ("Invalid regex pattern: ") ++ q, PluginMAUI.buildFailMsg⟩ ∧
      ∀ tokens2, PluginMAUI.build compile options tokens2 =
        PluginMAUI.build compile options tokens := by
  obtain ⟨q, hq, hqc, heq⟩ :=
    compilePatterns_fails compile options.excludePatterns h
  have hbuild : ∀ toks : List Token,
      PluginMAUI.build compile options toks =
        .error ⟨js ("Invalid regex pattern: ") ++ q, PluginMAUI.buildFailMsg⟩ := by
    intro toks
    simp only [PluginMAUI.build, heq]
  exact ⟨q, hq, hqc, hbuild tokens,
    fun t2 => (hbuild t2).trans (hbuild tokens).symm⟩

/-- Witness for the amended C7 at the concrete invalid pattern `[`. -/
theorem build_invalidPattern_amended_witness :
    PluginMAUI.build compileNone ⟨[js ("[")], js ("."), none⟩ [sampleToken] =
      .error ⟨js ("Invalid regex pattern: ") ++ js ("["),
        PluginMAUI.buildFailMsg⟩ := by
  obtain ⟨q, hq, _, heq, _⟩ :=
    build_invalidPattern_amended compileNone ⟨[js ("[")], js ("."), none⟩
      [sampleToken] ⟨js ("["), List.mem_singleton.mpr rfl, rfl⟩
  have hqe : q = js ("[") := List.mem_singleton.mp hq
  rw [hqe] at heq
  exact heq

/-- Counterexample to C8: the latest `pluginMAUI` revision ignores a supplied
`filename` option — with `filename := "custom.xaml"` the default document is
still named `<outputDirectory>/theme.xaml`. -/
theorem filenameOption_counterexample :
    Except.map (List.map OutputFile.filename)
      (PluginMAUI.build compileAny
        ⟨[], js ("."), some (js ("custom.xaml"))⟩ []) =
      .ok [js (".") ++ js ("/theme.xaml")] ∧
    containsSub (js (".") ++ js ("/theme.xaml")) (js ("custom.xaml")) = false :=
  ⟨rfl, by decide⟩

/-- C8 as amended: `pluginXAML` honors the `filename` option — the single
output document's name is the supplied value when it is present and truthy,
and the fixed literal `default.xaml` otherwise — while the latest
`pluginMAUI` revision ignores the option: its default document is always
`<outputDirectory>/theme.xaml`. -/
theorem filenameOption_amended :
    (∀ (options : PluginXAML.Options) (tokens : List Token),
      (PluginXAML.build options tokens).map OutputFile.filename =
        [PluginXAML.jsOrStr options.filename (js ("default.xaml"))]) ∧
    (∀ (compile : JStr → Option Pattern) (options : PluginMAUI.Options)
       (tokens : List Token) (outs : List OutputFile),
      PluginMAUI.build compile options tokens = .ok outs →
      (outs.head?.map OutputFile.filename) =
        some (options.outputDirectory ++ js ("/theme.xaml"))) := by
  constructor
  · intro options tokens
    rfl
  · intro compile options tokens outs h
    unfold PluginMAUI.build at h
    cases hc : PluginMAUI.compilePatterns compile options.excludePatterns with
    | error e =>
      simp only [hc] at h
      exact Except.noConfusion h
    | ok pats =>
      simp only [hc] at h
      cases hm : PluginMAUI.modeOutputsFor tokens pats
          options.outputDirectory (PluginMAUI.detectAllModes tokens) with
      | error e =>
        simp only [hm] at h
        exact Except.noConfusion h
      | ok mouts =>
        simp only [hm, Except.ok.injEq] at h
        rw [← h]
        rfl

/-- Witness for the amended C8 at a concrete options record that supplies
`filename := "custom.xaml"`. -/
theorem filenameOption_amended_witness :
    (PluginXAML.build ⟨some (js ("custom.xaml"))⟩ []).map OutputFile.filename =
      [PluginXAML.jsOrStr (some (js ("custom.xaml"))) (js ("default.xaml"))] ∧
    (([⟨js (".") ++ js ("/theme.xaml"),
        PluginMAUI.createResourceDictionary [] []
          (fun t => PluginMAUI.convertTokenToMAUI t none)⟩] :
        List OutputFile).head?.map OutputFile.filename) =
      some ((js (".")) ++ js ("/theme.xaml")) := by
  constructor
  · exact filenameOption_amended.1 ⟨some (js ("custom.xaml"))⟩ []
  · exact filenameOption_amended.2 compileAny ⟨[], js ("."), none⟩ [] _ rfl

/-- Counterexample to C1: a token whose dark-mode override is the empty
string has a mode override for `dark` and a collection name `Base` and
matches no exclusion pattern, yet requesting mode `dark` produces no
document at all for collection `Base`, because the JavaScript filter
`token.$extensions.mode[mode]` drops falsy override values. -/
theorem modeDocument_falsy_override_counterexample :
    (PluginMAUI.modeOverrideVal falsyOverrideToken (js ("dark"))).isSome = true ∧
    PluginMAUI.collectionNameOf falsyOverrideToken = some (js ("Base")) ∧
    PluginMAUI.createResourceDictionaryForMode [falsyOverrideToken] []
      (js ("dark")) (js ("out")) = .ok [] :=
  ⟨rfl, rfl, rfl⟩

theorem collectGroups_ok_of_names (m : JStr) :
    ∀ (l : List Token) (acc : List (JStr × List Token)),
    (∀ t ∈ l, (PluginMAUI.collectionNameOf t).isSome = true) →
    ∃ g, PluginMAUI.collectGroups m acc l = .ok g := by
  intro l
  induction l with
  | nil => exact fun acc _ => ⟨acc, rfl⟩
  | cons t ts ih =>
    intro acc hnames
    have hsome := hnames t (List.mem_cons_self t ts)
    cases hcn : PluginMAUI.collectionNameOf t with
    | none => rw [hcn] at hsome; simp at hsome
    | some cn =>
      obtain ⟨g, hg⟩ := ih (insertGroup acc cn (PluginMAUI.modeToken t m))
        (fun u hu => hnames u (List.mem_cons_of_mem t hu))
      refine ⟨g, ?_⟩
      rw [PluginMAUI.collectGroups, hcn]
      exact hg

theorem insertGroup_keys (acc : List (JStr × List Token)) (key : JStr)
    (tk : Token) :
    (insertGroup acc key tk).map Prod.fst =
      if key ∈ acc.map Prod.fst then acc.map Prod.fst
      else acc.map Prod.fst ++ [key] := by
  unfold insertGroup
  by_cases h : key ∈ acc.map Prod.fst
  · rw [if_pos h, if_pos h, List.map_map]
    apply List.map_congr_left
    intro e _
    by_cases he : e.1 = key <;> simp [he]
  · rw [if_neg h, if_neg h]
    simp

theorem collectGroups_keys (m : JStr) :
    ∀ (l : List Token) (acc g : List (JStr × List Token)),
    PluginMAUI.collectGroups m acc l = .ok g →
    ((acc.map Prod.fst).Nodup → (g.map Prod.fst).Nodup) ∧
    (∀ k, k ∈ acc.map Prod.fst → k ∈ g.map Prod.fst) := by
  intro l
  induction l with
  | nil =>
    intro acc g hok
    cases hok
    exact ⟨id, fun k hk => hk⟩
  | cons t ts ih =>
    intro acc g hok
    rw [PluginMAUI.collectGroups] at hok
    cases hcn : PluginMAUI.collectionNameOf t with
    | none => rw [hcn] at hok; cases hok
    | some cn =>
      rw [hcn] at hok
      obtain ⟨hnd, hmem⟩ := ih _ g hok
      constructor
      · intro hnodup
        apply hnd
        rw [insertGroup_keys]
        split
        · exact hnodup
        · next hnew =>
            exact List.Nodup.append hnodup (List.nodup_singleton cn)
              (List.disjoint_singleton.mpr hnew)
      · intro k hk
        apply hmem
        rw [insertGroup_keys]
        split
        · exact hk
        · exact List.mem_append_left _ hk

theorem insertGroup_memIn_preserved {x : Token} {cn : JStr}
    {acc : List (JStr × List Token)} (key : JStr) (tk : Token)
    (h : ∃ gr, (cn, gr) ∈ acc ∧ x ∈ gr) :
    ∃ gr, (cn, gr) ∈ insertGroup acc key tk ∧ x ∈ gr := by
  obtain ⟨gr, hmem, hx⟩ := h
  unfold insertGroup
  split
  · by_cases hk : cn = key
    · exact ⟨gr ++ [tk], List.mem_map.mpr ⟨(cn, gr), hmem, by simp [hk]⟩,
        List.mem_append_left _ hx⟩
    · exact ⟨gr, List.mem_map.mpr ⟨(cn, gr), hmem, by simp [hk]⟩, hx⟩
  · exact ⟨gr, List.mem_append_left _ hmem, hx⟩

theorem insertGroup_memIn_new (acc : List (JStr × List Token)) (key : JStr)
    (tk : Token) :
    ∃ gr, (key, gr) ∈ insertGroup acc key tk ∧ tk ∈ gr := by
  unfold insertGroup
  split
  · next h =>
      obtain ⟨e, he, hfst⟩ := List.mem_map.mp h
      exact ⟨e.2 ++ [tk], List.mem_map.mpr ⟨e, he, by simp [hfst]⟩, by simp⟩
  · exact ⟨[tk], by simp, by simp⟩

theorem collectGroups_memIn (m : JStr) :
    ∀ (l : List Token) (acc g : List (JStr × List Token)) {x : Token}
      {cn : JStr},
    (∃ gr, (cn, gr) ∈ acc ∧ x ∈ gr) →
    PluginMAUI.collectGroups m acc l = .ok g →
    ∃ gr, (cn, gr) ∈ g ∧ x ∈ gr := by
  intro l
  induction l with
  | nil =>
    intro acc g x cn h hok
    cases hok
    exact h
  | cons t ts ih =>
    intro acc g x cn h hok
    rw [PluginMAUI.collectGroups] at hok
    cases hcn : PluginMAUI.collectionNameOf t with
    | none => rw [hcn] at hok; cases hok
    | some cnt =>
      rw [hcn] at hok
      exact ih _ g (insertGroup_memIn_preserved _ _ h) hok

theorem collectGroups_mem_of_elem (m : JStr) :
    ∀ (l : List Token) (acc g : List (JStr × List Token)) {t : Token}
      {cn : JStr},
    t ∈ l → PluginMAUI.collectionNameOf t = some cn →
    PluginMAUI.collectGroups m acc l = .ok g →
    ∃ gr, (cn, gr) ∈ g ∧ PluginMAUI.modeToken t m ∈ gr := by
  intro l
  induction l with
  | nil =>
    intro acc g t cn ht
    cases ht
  | cons u us ih =>
    intro acc g t cn ht hcn hok
    rw [PluginMAUI.collectGroups] at hok
    rcases List.mem_cons.mp ht with rfl | hts
    · rw [hcn] at hok
      exact collectGroups_memIn m us _ g (insertGroup_memIn_new acc cn _) hok
    · cases hcnu : PluginMAUI.collectionNameOf u with
      | none => rw [hcnu] at hok; cases hok
      | some cnu =>
        rw [hcnu] at hok
        exact ih _ g hts hcn hok

theorem entry_unique_of_nodup_fst :
    ∀ (l : List (JStr × List Token)), (l.map Prod.fst).Nodup →
    ∀ {e1 e2 : JStr × List Token}, e1 ∈ l → e2 ∈ l → e1.1 = e2.1 → e1 = e2 := by
  intro l
  induction l with
  | nil =>
    intro _ e1 e2 h1
    cases h1
  | cons a as ih =>
    intro h e1 e2 h1 h2 heq
    rw [List.map_cons, List.nodup_cons] at h
    rcases List.mem_cons.mp h1 with rfl | h1m
    · rcases List.mem_cons.mp h2 with rfl | h2m
      · rfl
      · exfalso
        apply h.1
        rw [heq]
        exact List.mem_map_of_mem Prod.fst h2m
    · rcases List.mem_cons.mp h2 with rfl | h2m
      · exfalso
        apply h.1
        rw [← heq]
        exact List.mem_map_of_mem Prod.fst h1m
      · exact ih h.2 h1m h2m heq

theorem infix_flatten_of_mem {x : JStr} {L : List JStr} (h : x ∈ L) :
    x <:+: L.flatten := by
  obtain ⟨s, t, rfl⟩ := List.append_of_mem h
  exact ⟨s.flatten, t.flatten, by simp⟩

theorem infix_wrap {x Y H F : JStr} (h : x <:+: Y) : x <:+: H ++ Y ++ F := by
  obtain ⟨s, t, rfl⟩ := h
  exact ⟨H ++ s, t ++ F, by simp [List.append_assoc]⟩

theorem modeDocName_inj (dir m c1 c2 : JStr) :
    PluginMAUI.modeDocName dir c1 m = PluginMAUI.modeDocName dir c2 m ↔
      c1 = c2 := by
  unfold PluginMAUI.modeDocName
  constructor
  · intro h
    have h1 := List.append_cancel_right h
    have h2 := List.append_cancel_right h1
    have h3 := List.append_cancel_right h2
    exact List.append_cancel_left h3
  · rintro rfl
    rfl

theorem countP_key_eq_one :
    ∀ (l : List (JStr × List Token)) (cn : JStr),
    (l.map Prod.fst).Nodup → cn ∈ l.map Prod.fst →
    l.countP (fun e => e.1 = cn) = 1 := by
  intro l
  induction l with
  | nil =>
    intro cn _ h
    cases h
  | cons a as ih =>
    intro cn hnd hmem
    rw [List.map_cons, List.nodup_cons] at hnd
    rw [List.countP_cons]
    by_cases ha : a.1 = cn
    · have h0 : as.countP (fun e => e.1 = cn) = 0 := by
        rw [List.countP_eq_zero]
        intro e he
        simp only [decide_eq_true_eq]
        intro hcne
        apply hnd.1
        rw [ha, ← hcne]
        exact List.mem_map_of_mem Prod.fst he
      rw [h0]
      simp [ha]
    · have hmem2 : cn ∈ as.map Prod.fst := by
        rcases List.mem_cons.mp hmem with h | h
        · exact absurd h.symm ha
        · exact h
      rw [ih cn hnd.2 hmem2]
      simp [ha]

/-- C1 as amended: for every token collection, mode `m`, compiled exclusion
patterns and output directory, and every token `t` in the collection that has
a truthy mode override for `m` (a falsy override, such as the empty string,
is dropped by the code), has a collection name, and matches no exclusion
pattern — provided every token passing the mode filter has a collection name
(otherwise the whole mode build throws) — requesting mode `m` produces
exactly one output document for `t`'s collection, named from the template
`<outputDirectory>/theme.<collection>.<mode>.xaml`, and that document
contains `t` rendered with its value replaced by the mode-override value. -/
theorem modeDocument_unique_amended (tokens : List Token) (m dir cn : JStr)
    (t : Token) (regexPatterns : List Pattern)
    (ht : t ∈ tokens)
    (hov : PluginMAUI.hasModeVal t m = true)
    (hex : ∀ p ∈ regexPatterns, p t.id = false)
    (hcn : PluginMAUI.collectionNameOf t = some cn)
    (hwf : ∀ u ∈ tokens, PluginMAUI.modeFilterPass regexPatterns m u = true →
      (PluginMAUI.collectionNameOf u).isSome = true) :
    ∃ outs,
      PluginMAUI.createResourceDictionaryForMode tokens regexPatterns m dir =
        .ok outs ∧
      outs.countP (fun o => o.filename = PluginMAUI.modeDocName dir cn m) = 1 ∧
      ∀ o ∈ outs, o.filename = PluginMAUI.modeDocName dir cn m →
        PluginMAUI.convertTokenToMAUI (PluginMAUI.modeToken t m) none <:+:
          o.contents := by
  have hpass : PluginMAUI.modeFilterPass regexPatterns m t = true := by
    rw [PluginMAUI.modeFilterPass, Bool.and_eq_true]
    refine ⟨hov, ?_⟩
    simp only [Bool.not_eq_true']
    rw [List.any_eq_false]
    intro p hp
    simp [hex p hp]
  have htf : t ∈ tokens.filter (PluginMAUI.modeFilterPass regexPatterns m) :=
    List.mem_filter.mpr ⟨ht, hpass⟩
  have hnames : ∀ u ∈ tokens.filter (PluginMAUI.modeFilterPass regexPatterns m),
      (PluginMAUI.collectionNameOf u).isSome = true := by
    intro u hu
    exact hwf u (List.mem_of_mem_filter hu) (List.of_mem_filter hu)
  obtain ⟨groups, hok⟩ := collectGroups_ok_of_names m
    (tokens.filter (PluginMAUI.modeFilterPass regexPatterns m)) [] hnames
  have hgrp : PluginMAUI.groupTokensByCollectionAndMode tokens m regexPatterns =
      .ok groups := by
    rw [PluginMAUI.groupTokensByCollectionAndMode]
    exact hok
  obtain ⟨hndfun, _⟩ := collectGroups_keys m
    (tokens.filter (PluginMAUI.modeFilterPass regexPatterns m)) [] groups hok
  have hnodup : (groups.map Prod.fst).Nodup := hndfun (by simp)
  obtain ⟨gr, hgr, hmt⟩ := collectGroups_mem_of_elem m
    (tokens.filter (PluginMAUI.modeFilterPass regexPatterns m)) [] groups
    htf hcn hok
  have hkey : cn ∈ groups.map Prod.fst := List.mem_map_of_mem Prod.fst hgr
  have hout : PluginMAUI.createResourceDictionaryForMode tokens regexPatterns
      m dir = .ok (groups.map (fun e =>
        ⟨PluginMAUI.modeDocName dir e.1 m,
         PluginMAUI.modeXamlHeader ++
           (e.2.map (fun tk => PluginMAUI.convertTokenToMAUI tk none)).flatten ++
           js ("</ResourceDictionary>")⟩)) := by
    unfold PluginMAUI.createResourceDictionaryForMode
    rw [hgrp]
  refine ⟨_, hout, ?_, ?_⟩
  · rw [List.countP_map]
    rw [List.countP_congr ?_]
    · exact countP_key_eq_one groups cn hnodup hkey
    · intro e _
      simp only [Function.comp, decide_eq_true_eq]
      exact modeDocName_inj dir m e.1 cn
  · intro o ho hname
    obtain ⟨e, he, rfl⟩ := List.mem_map.mp ho
    have he1 : e.1 = cn := (modeDocName_inj dir m e.1 cn).mp hname
    have hee : e = (cn, gr) :=
      entry_unique_of_nodup_fst groups hnodup he hgr (by rw [he1])
    rw [hee]
    exact infix_wrap (infix_flatten_of_mem (List.mem_map_of_mem _ hmt))

/-- Witness for the amended C1 at a concrete single-token collection with a
dark-mode override and collection `Base`. -/
theorem modeDocument_unique_amended_witness :
    Except.map
      (List.countP (fun o =>
        o.filename = PluginMAUI.modeDocName (js ("out")) (js ("Base"))
          (js ("dark"))))
      (PluginMAUI.createResourceDictionaryForMode [sampleToken] []
        (js ("dark")) (js ("out"))) = .ok 1 := by
  obtain ⟨outs, h1, h2, _⟩ := modeDocument_unique_amended [sampleToken]
    (js ("dark")) (js ("out")) (js ("Base")) sampleToken []
    (by simp) (by decide) (fun p hp => absurd hp (List.not_mem_nil p))
    (by decide)
    (fun u hu _ => by
      have hue : u = sampleToken := List.mem_singleton.mp hu
      rw [hue]
      decide)
  rw [h1]
  simp only [Except.map]
  rw [h2]

theorem splitNl_no_newline (l : JStr) (h : ('\n') ∉ l) :
    Postprocess.splitNl l = [l] := by
  induction l with
  | nil => rfl
  | cons c cs ih =>
    have hc : c ≠ '\n' := fun hcc => h (hcc ▸ List.mem_cons_self c cs)
    have hcs : ('\n') ∉ cs := fun hmem => h (List.mem_cons_of_mem c hmem)
    rw [Postprocess.splitNl, if_neg hc, ih hcs]
    rfl

theorem splitNl_append (l rest : JStr) (h : ('\n') ∉ l) :
    Postprocess.splitNl (l ++ '\n' :: rest) =
      l :: Postprocess.splitNl rest := by
  induction l with
  | nil =>
    rw [List.nil_append, Postprocess.splitNl, if_pos rfl]
  | cons c cs ih =>
    have hc : c ≠ '\n' := fun hcc => h (hcc ▸ List.mem_cons_self c cs)
    have hcs : ('\n') ∉ cs := fun hmem => h (List.mem_cons_of_mem c hmem)
    rw [List.cons_append, Postprocess.splitNl, if_neg hc, ih hcs]
    rfl

theorem splitNl_joinNl :
    ∀ (ls : List JStr), ls ≠ [] → (∀ l ∈ ls, ('\n') ∉ l) →
    Postprocess.splitNl (Postprocess.joinNl ls) = ls := by
  intro ls
  induction ls with
  | nil => intro h; exact absurd rfl h
  | cons l ls ih =>
    intro _ hnl
    cases ls with
    | nil =>
      exact splitNl_no_newline l (hnl l (List.mem_cons_self l []))
    | cons l2 ls2 =>
      rw [Postprocess.joinNl,
        splitNl_append l _ (hnl l (List.mem_cons_self l (l2 :: ls2))),
        ih (by simp) (fun u hu => hnl u (List.mem_cons_of_mem l hu))]

theorem deltaSum_cons (a : JStr) (l : List JStr) :
    Postprocess.deltaSum (a :: l) =
      Postprocess.parenDelta a + Postprocess.deltaSum l := by
  simp [Postprocess.deltaSum]

theorem processLines_sublist_aux :
    ∀ (ls : List JStr) (b : Bool) (c : Int),
    List.Sublist (Postprocess.processLines b c ls) ls := by
  intro ls
  induction ls with
  | nil =>
    intro b c
    rw [Postprocess.processLines]
  | cons l rest ih =>
    intro b c
    rw [Postprocess.processLines]
    by_cases h1 : (if !b && Postprocess.isColorbaseDecl l then true else b) = true
    · rw [if_pos h1]
      by_cases h2 : c + Postprocess.parenDelta l = 0
      · rw [if_pos h2]
        exact List.Sublist.cons l (ih false _)
      · rw [if_neg h2]
        exact List.Sublist.cons l (ih true _)
    · rw [if_neg h1]
      exact List.Sublist.cons₂ l (ih b c)

theorem processLines_keep :
    ∀ (pre : List JStr), (∀ l ∈ pre, Postprocess.isColorbaseDecl l = false) →
    ∀ rest, Postprocess.processLines false 0 (pre ++ rest) =
      pre ++ Postprocess.processLines false 0 rest := by
  intro pre
  induction pre with
  | nil => intro _ rest; rfl
  | cons l pre ih =>
    intro h rest
    have hd := h l (List.mem_cons_self l pre)
    rw [List.cons_append, Postprocess.processLines]
    simp only [hd, Bool.not_false, Bool.true_and, Bool.and_false, if_neg,
      Bool.false_eq_true, if_false]
    rw [ih (fun u hu => h u (List.mem_cons_of_mem l hu)) rest]
    rfl

theorem processLines_inblock :
    ∀ (ls post : List JStr) (cnt : Int), ls ≠ [] →
    (∀ k, k < ls.length → cnt + Postprocess.deltaSum (ls.take k) ≠ 0) →
    cnt + Postprocess.deltaSum ls = 0 →
    Postprocess.processLines true cnt (ls ++ post) =
      Postprocess.processLines false 0 post := by
  intro ls
  induction ls with
  | nil =>
    intro post cnt h
    exact absurd rfl h
  | cons l rest ih =>
    intro post cnt _ hbal hend
    rw [List.cons_append, Postprocess.processLines]
    simp only [Bool.not_true, Bool.false_and, Bool.false_eq_true, if_false,
      if_true]
    cases rest with
    | nil =>
      have h0 : cnt + Postprocess.parenDelta l = 0 := by
        rw [deltaSum_cons] at hend
        simp [Postprocess.deltaSum] at hend
        omega
      rw [if_pos h0, h0, List.nil_append]
    | cons l2 rest2 =>
      have hk1 : cnt + Postprocess.parenDelta l ≠ 0 := by
        have h1 := hbal 1 (by simp)
        rw [List.take_succ_cons, List.take_zero, deltaSum_cons] at h1
        simp [Postprocess.deltaSum] at h1
        omega
      rw [if_neg hk1]
      refine ih post (cnt + Postprocess.parenDelta l) (by simp) ?_ ?_
      · intro k hk
        have h2 := hbal (k + 1) (by simpa using Nat.succ_lt_succ hk)
        rw [List.take_succ_cons, deltaSum_cons] at h2
        omega
      · rw [deltaSum_cons] at hend
        omega

/-- C9 as amended: the filter keeps every line unchanged and in order apart
from removed block lines, and removes exactly the lines of a `"colorbase`
block — from its declaration line through the line on which the parenthesis
count returns to zero — for every input in which no line before the block
also begins (after trimming) with `"colorbase`.  The original claim's
restriction to top-level blocks does not hold: the code removes any line
whose trimmed text begins with `"colorbase`, even nested inside another
construct. -/
theorem processSCSS_removesBlock_amended :
    (∀ (b : Bool) (c : Int) (ls : List JStr),
      List.Sublist (Postprocess.processLines b c ls) ls) ∧
    (∀ (pre blockLines post : List JStr),
      (∀ l ∈ pre, Postprocess.isColorbaseDecl l = false) →
      blockLines ≠ [] →
      Postprocess.isColorbaseDecl (blockLines.headD []) = true →
      (∀ k, k < blockLines.length → 0 < k →
        Postprocess.deltaSum (blockLines.take k) ≠ 0) →
      Postprocess.deltaSum blockLines = 0 →
      (∀ l ∈ pre ++ blockLines ++ post, ('\n') ∉ l) →
      Postprocess.processSCSS
          (Postprocess.joinNl (pre ++ blockLines ++ post)) =
        Postprocess.joinNl (pre ++ Postprocess.processLines false 0 post)) := by
  constructor
  · exact fun b c ls => processLines_sublist_aux ls b c
  · intro pre blockLines post hpre hne hdecl hbal hend hnl
    have hne2 : pre ++ blockLines ++ post ≠ [] := by
      intro hc
      rcases List.append_eq_nil.mp hc with ⟨h1, _⟩
      rcases List.append_eq_nil.mp h1 with ⟨_, h2⟩
      exact hne h2
    unfold Postprocess.processSCSS
    rw [splitNl_joinNl (pre ++ blockLines ++ post) hne2 hnl]
    congr 1
    rw [List.append_assoc, processLines_keep pre hpre (blockLines ++ post)]
    congr 1
    cases blockLines with
    | nil => exact absurd rfl hne
    | cons d rest =>
      have hdecl2 : Postprocess.isColorbaseDecl d = true := hdecl
      rw [List.cons_append, Postprocess.processLines]
      simp only [hdecl2, Bool.not_false, Bool.true_and, if_true]
      cases rest with
      | nil =>
        have h0 : (0 : Int) + Postprocess.parenDelta d = 0 := by
          rw [deltaSum_cons] at hend
          simp [Postprocess.deltaSum] at hend
          omega
        rw [if_pos h0, h0, List.nil_append]
      | cons l2 rest2 =>
        have hk1 : (0 : Int) + Postprocess.parenDelta d ≠ 0 := by
          have h1 := hbal 1 (by simp) (by omega)
          rw [List.take_succ_cons, List.take_zero, deltaSum_cons] at h1
          simp [Postprocess.deltaSum] at h1
          omega
        rw [if_neg hk1]
        refine processLines_inblock (l2 :: rest2) post
          (0 + Postprocess.parenDelta d) (by simp) ?_ ?_
        · intro k hk
          have h2 := hbal (k + 1) (by simpa using Nat.succ_lt_succ hk)
            (Nat.succ_pos k)
          rw [List.take_succ_cons, deltaSum_cons] at h2
          omega
        · rw [deltaSum_cons] at hend
          omega

/-- Counterexample to C9: a stylesheet with a genuine top-level `"colorbase`
block and, later, a line nested inside another construct whose trimmed text
also begins with `"colorbase`.  The claim demands that only the top-level
block's two lines be removed; the code also removes the nested line. -/
theorem processSCSS_nestedDecl_counterexample :
    Postprocess.processSCSS (Postprocess.joinNl
      [js ("\"colorbase1: ("), js (")"), js ("$m: ("),
       js ("  \"colorbasenested: x"), js (")")]) =
      Postprocess.joinNl [js ("$m: ("), js (")")] ∧
    Postprocess.joinNl [js ("$m: ("), js (")")] ≠
      Postprocess.joinNl [js ("$m: ("), js ("  \"colorbasenested: x"),
        js (")")] :=
  ⟨rfl, by decide⟩

/-- Witness for the amended C9 at a concrete stylesheet with a three-line
`"colorbase` block between unrelated lines (blank line included). -/
theorem processSCSS_removesBlock_amended_witness :
    Postprocess.processSCSS (Postprocess.joinNl
      ([js ("$x: 1;"), js ("")] ++
       [js ("\"colorbase-1\": ("), js ("  value: #fff"), js (")")] ++
       [js ("$y: 2;")])) =
      Postprocess.joinNl ([js ("$x: 1;"), js ("")] ++
        Postprocess.processLines false 0 [js ("$y: 2;")]) :=
  processSCSS_removesBlock_amended.2 [js ("$x: 1;"), js ("")]
    [js ("\"colorbase-1\": ("), js ("  value: #fff"), js (")")]
    [js ("$y: 2;")] (by decide) (by decide) (by decide) (by decide)
    (by decide) (by decide)
